import Mathlib

/-!
Verification of the deduplication-and-merge core of the alpha-police-events
pipeline: the identity assigner (`choose_dedupe_key` in `pipeline.py`) and the
merge engine (`_ensure_dedupe` / `_merge` in `master_sync.py`), shallowly
embedded over an explicit tabular data model.

Modelling conventions:
* a cell value is a scalar: string, integer, or null (covering Python `None`
  and missing cells);
* a `Row` is an ordered association list from column name to value, and a
  `DF` (data frame) is a column-name list together with a row list — the
  rectangular pandas frame where every row carries every column;
* pandas `astype(str)` is Python `str()` on each cell (`Value.toPyStr`);
* duplicate column labels, float cells, and NaN-vs-None distinctions are not
  modelled — no claim exercises them.
-/

namespace AlphaPolice

/-- A scalar cell value: string, integer, or null. -/
inductive Value where
  | str (s : String)
  | int (n : Int)
  | null
deriving DecidableEq, Repr

/-- Python `str()` coercion, as applied by pandas `astype(str)`. -/
def Value.toPyStr : Value → String
  | .str s => s
  | .int n => toString n
  | .null => "None"

/-- `true` exactly on string-valued cells. -/
def Value.isStr : Value → Bool
  | .str _ => true
  | _ => false

/-- One record: an ordered mapping from column name to cell value. -/
abbrev Row : Type := List (String × Value)

/-- Cell access `row.get(c)`: the first binding of `c`, null when absent. -/
def rowGet (r : Row) (c : String) : Value :=
  match r.lookup c with
  | some v => v
  | none => Value.null

/-- A data frame: the column labels and the row list. -/
structure DF where
  cols : List String
  rows : List Row
deriving DecidableEq

/-- The string form of a row's `_dedupe_key` cell (the Identity Key). -/
def keyStr (r : Row) : String := (rowGet r "_dedupe_key").toPyStr

/-- `df["_dedupe_key"] = df["_dedupe_key"].astype(str)` restricted to one row:
every `_dedupe_key` cell is replaced by its Python string form. -/
def astypeStrKey (r : Row) : Row :=
  r.map (fun p => if p.1 = "_dedupe_key" then (p.1, Value.str p.2.toPyStr) else p)

/-- A row whose `_dedupe_key` cells (if any) are already strings. -/
def StrKeyed (r : Row) : Prop :=
  ∀ p ∈ r, p.1 = "_dedupe_key" → p.2.isStr = true

instance (r : Row) : Decidable (StrKeyed r) :=
  inferInstanceAs (Decidable (∀ p ∈ r, _ → _))

/-! ### `master_sync._ensure_dedupe` and `master_sync._merge` -/

/-- `_ensure_dedupe(df_new)`: fail when the `_dedupe_key` column is missing,
otherwise coerce that column to strings (on a copy). -/
def _ensure_dedupe (df_new : DF) : Except String DF :=
  if "_dedupe_key" ∈ df_new.cols then
    .ok ⟨df_new.cols, df_new.rows.map astypeStrKey⟩
  else
    .error "df_new must include _dedupe_key before syncing."

/-- `_merge(df_new, df_master)`: returns the updated master and the number of
appended rows, mirroring the source branch for branch. -/
def _merge (df_new : DF) (df_master : Option DF) : Except String (DF × Nat) :=
  match _ensure_dedupe df_new with
  | .error e => .error e
  | .ok dfn =>
    match df_master with
    | none => .ok (dfn, dfn.rows.length)
    | some m =>
      if m.rows.isEmpty then .ok (dfn, dfn.rows.length)
      else if "_dedupe_key" ∉ m.cols then
        -- If an old master without dedupe exists, rebuild from new
        .ok (dfn, dfn.rows.length)
      else
        let mRows := m.rows.map astypeStrKey
        let existing := mRows.map keyStr
        let dfAppend := dfn.rows.filter (fun r => !(existing.contains (keyStr r)))
        .ok (⟨m.cols ++ dfn.cols.filter (fun c => !(m.cols.contains c)),
              mRows ++ dfAppend⟩,
             dfAppend.length)

/-! ### Basic lemmas about key coercion -/

theorem astype_cons_key (v : Value) (t : Row) :
    astypeStrKey (("_dedupe_key", v) :: t)
      = ("_dedupe_key", Value.str v.toPyStr) :: astypeStrKey t := by
  simp [astypeStrKey]

theorem astype_cons_ne (k : String) (v : Value) (t : Row) (hk : k ≠ "_dedupe_key") :
    astypeStrKey ((k, v) :: t) = (k, v) :: astypeStrKey t := by
  simp [astypeStrKey, hk]

theorem lookup_astypeStrKey (r : Row) :
    List.lookup "_dedupe_key" (astypeStrKey r)
      = (List.lookup "_dedupe_key" r).map (fun v => Value.str v.toPyStr) := by
  induction r with
  | nil => rfl
  | cons p t ih =>
    obtain ⟨k, v⟩ := p
    by_cases hk : k = "_dedupe_key"
    · subst hk
      rw [astype_cons_key]
      simp [List.lookup]
    · have hbk : ("_dedupe_key" == k) = false := by
        simp only [beq_eq_false_iff_ne, ne_eq]
        exact fun h => hk h.symm
      rw [astype_cons_ne k v t hk]
      simp only [List.lookup, hbk]
      exact ih

theorem keyStr_astypeStrKey (r : Row) : keyStr (astypeStrKey r) = keyStr r := by
  unfold keyStr rowGet
  rw [lookup_astypeStrKey]
  cases List.lookup "_dedupe_key" r <;> rfl

theorem strKeyed_astypeStrKey (r : Row) : StrKeyed (astypeStrKey r) := by
  intro p hp hk
  simp only [astypeStrKey, List.mem_map] at hp
  obtain ⟨q, hq, rfl⟩ := hp
  by_cases h : q.1 = "_dedupe_key" <;> simp_all [Value.isStr]

theorem astypeStrKey_of_strKeyed (r : Row) (h : StrKeyed r) : astypeStrKey r = r := by
  induction r with
  | nil => rfl
  | cons p t ih =>
    obtain ⟨k, v⟩ := p
    have ht : StrKeyed t := fun q hq => h q (List.mem_cons_of_mem _ hq)
    by_cases hk : k = "_dedupe_key"
    · subst hk
      have hv := h ("_dedupe_key", v) (List.mem_cons_self _ _) rfl
      cases v with
      | str s => rw [astype_cons_key]; exact congrArg _ (ih ht)
      | int n => simp [Value.isStr] at hv
      | null => simp [Value.isStr] at hv
    · rw [astype_cons_ne k v t hk]
      exact congrArg _ (ih ht)

theorem map_keyStr_astype (l : List Row) :
    (l.map astypeStrKey).map keyStr = l.map keyStr := by
  rw [List.map_map]
  exact List.map_congr_left (fun r _ => keyStr_astypeStrKey r)

theorem map_astype_of_strKeyed (l : List Row) (h : ∀ r ∈ l, StrKeyed r) :
    l.map astypeStrKey = l := by
  calc l.map astypeStrKey = l.map id :=
        List.map_congr_left (fun r hr => astypeStrKey_of_strKeyed r (h r hr))
  _ = l := List.map_id l

end AlphaPolice
namespace AlphaPolice

/-! ### Branch lemmas for the merge engine -/

theorem ensure_dedupe_ok (B : DF) (hB : "_dedupe_key" ∈ B.cols) :
    _ensure_dedupe B = .ok ⟨B.cols, B.rows.map astypeStrKey⟩ := by
  simp [_ensure_dedupe, hB]

theorem merge_none_eq (B : DF) (hB : "_dedupe_key" ∈ B.cols) :
    _merge B none = .ok (⟨B.cols, B.rows.map astypeStrKey⟩, B.rows.length) := by
  simp [_merge, ensure_dedupe_ok B hB]

theorem merge_empty_eq (B M : DF) (hB : "_dedupe_key" ∈ B.cols) (hM : M.rows = []) :
    _merge B (some M) = .ok (⟨B.cols, B.rows.map astypeStrKey⟩, B.rows.length) := by
  simp [_merge, ensure_dedupe_ok B hB, hM]

theorem merge_legacy_eq (B M : DF) (hB : "_dedupe_key" ∈ B.cols)
    (hMne : M.rows ≠ []) (hMc : "_dedupe_key" ∉ M.cols) :
    _merge B (some M) = .ok (⟨B.cols, B.rows.map astypeStrKey⟩, B.rows.length) := by
  simp [_merge, ensure_dedupe_ok B hB, hMne, hMc]

theorem merge_main_eq (B M : DF) (hB : "_dedupe_key" ∈ B.cols)
    (hMne : M.rows ≠ []) (hMc : "_dedupe_key" ∈ M.cols) :
    _merge B (some M) = .ok
      (⟨M.cols ++ B.cols.filter (fun c => !(M.cols.contains c)),
        M.rows.map astypeStrKey
          ++ (B.rows.map astypeStrKey).filter
              (fun r => !((M.rows.map keyStr).contains (keyStr r)))⟩,
       ((B.rows.map astypeStrKey).filter
          (fun r => !((M.rows.map keyStr).contains (keyStr r)))).length) := by
  simp [_merge, ensure_dedupe_ok B hB, List.isEmpty_iff, hMne, hMc, map_keyStr_astype,
    keyStr_astypeStrKey]


/-- C5: when the master is absent, empty, or lacks the Identity Key column,
the merge returns exactly the new batch and counts all its rows as appended
(a batch whose keys are already strings is returned unchanged). -/
theorem merge_first_run_fallback (B : DF) (M : Option DF)
    (hB : "_dedupe_key" ∈ B.cols)
    (hBs : ∀ r ∈ B.rows, StrKeyed r)
    (hM : M = none ∨ ∃ m, M = some m ∧ (m.rows = [] ∨ "_dedupe_key" ∉ m.cols)) :
    _merge B M = .ok (B, B.rows.length) := by
  have hmap : B.rows.map astypeStrKey = B.rows := map_astype_of_strKeyed B.rows hBs
  rcases hM with rfl | ⟨m, rfl, hm⟩
  · rw [merge_none_eq B hB, hmap]
  · rcases hm with hm | hm
    · rw [merge_empty_eq B m hB hm, hmap]
    · by_cases hre : m.rows = []
      · rw [merge_empty_eq B m hB hre, hmap]
      · rw [merge_legacy_eq B m hB hre hm, hmap]

theorem merge_first_run_fallback_witness :
    (("_dedupe_key" ∈ (⟨["_dedupe_key"], [[("_dedupe_key", Value.str "x")]]⟩ : DF).cols)
      ∧ (∀ r ∈ (⟨["_dedupe_key"], [[("_dedupe_key", Value.str "x")]]⟩ : DF).rows, StrKeyed r))
    ∧ _merge ⟨["_dedupe_key"], [[("_dedupe_key", Value.str "x")]]⟩
        (some ⟨["legacy"], [[("legacy", Value.str "old1")], [("legacy", Value.str "old2")]]⟩)
      = .ok (⟨["_dedupe_key"], [[("_dedupe_key", Value.str "x")]]⟩, 1) :=
  ⟨⟨by decide, by decide⟩,
   merge_first_run_fallback _ _ (by decide) (by decide)
     (Or.inr ⟨_, rfl, Or.inr (by decide)⟩)⟩

/-- C6: `_merge` fails if and only if the new batch lacks the `_dedupe_key`
column, whatever the master argument is; every other input is accepted. -/
theorem merge_error_iff (B : DF) (M : Option DF) :
    (∃ e, _merge B M = .error e) ↔ "_dedupe_key" ∉ B.cols := by
  by_cases hc : "_dedupe_key" ∈ B.cols
  · refine iff_of_false ?_ (by simpa using hc)
    rintro ⟨e, he⟩
    rcases M with _ | m
    · rw [merge_none_eq B hc] at he
      exact Except.noConfusion he
    · by_cases hre : m.rows = []
      · rw [merge_empty_eq B m hc hre] at he
        exact Except.noConfusion he
      · by_cases hmc : "_dedupe_key" ∈ m.cols
        · rw [merge_main_eq B m hc hre hmc] at he
          exact Except.noConfusion he
        · rw [merge_legacy_eq B m hc hre hmc] at he
          exact Except.noConfusion he
  · exact iff_of_true
      ⟨"df_new must include _dedupe_key before syncing.",
        by simp [_merge, _ensure_dedupe, hc]⟩ hc

/-- C2 counterexample: a non-empty master lacking the Identity Key column
loses its rows — the merged master no longer contains them. -/
theorem merge_append_only_counterexample :
    _merge ⟨["_dedupe_key"], [[("_dedupe_key", Value.str "a")]]⟩
        (some ⟨["x"], [[("x", Value.str "m")]]⟩)
      = .ok (⟨["_dedupe_key"], [[("_dedupe_key", Value.str "a")]]⟩, 1)
    ∧ ([("x", Value.str "m")] : Row) ∉ ([[("_dedupe_key", Value.str "a")]] : List Row) :=
  ⟨rfl, by decide⟩

/-- C2 amended: for a master that carries the Identity Key column with
string-valued keys, every master row is present unchanged, in order, as a
prefix of the merged master. -/
theorem merge_append_only_amended (B M : DF) (hB : "_dedupe_key" ∈ B.cols)
    (hMc : "_dedupe_key" ∈ M.cols) (hMs : ∀ r ∈ M.rows, StrKeyed r) :
    ∃ res : DF × Nat, _merge B (some M) = .ok res
      ∧ ∃ rest, res.1.rows = M.rows ++ rest := by
  by_cases hre : M.rows = []
  · exact ⟨_, merge_empty_eq B M hB hre, B.rows.map astypeStrKey, by simp [hre]⟩
  · refine ⟨_, merge_main_eq B M hB hre hMc,
      (B.rows.map astypeStrKey).filter
        (fun r => !((M.rows.map keyStr).contains (keyStr r))), ?_⟩
    simp only [map_astype_of_strKeyed M.rows hMs]

theorem merge_append_only_amended_witness :
    (("_dedupe_key" ∈ (⟨["_dedupe_key"], [[("_dedupe_key", Value.str "b")]]⟩ : DF).cols)
      ∧ ("_dedupe_key" ∈ (⟨["_dedupe_key"], [[("_dedupe_key", Value.str "a")]]⟩ : DF).cols)
      ∧ (∀ r ∈ (⟨["_dedupe_key"], [[("_dedupe_key", Value.str "a")]]⟩ : DF).rows, StrKeyed r))
    ∧ ∃ res : DF × Nat,
        _merge ⟨["_dedupe_key"], [[("_dedupe_key", Value.str "b")]]⟩
            (some ⟨["_dedupe_key"], [[("_dedupe_key", Value.str "a")]]⟩) = .ok res
        ∧ ∃ rest, res.1.rows = [[("_dedupe_key", Value.str "a")]] ++ rest :=
  ⟨⟨by decide, by decide, by decide⟩,
   merge_append_only_amended _ _ (by decide) (by decide) (by decide)⟩


/-- C7: order preservation — with a non-empty, string-keyed master, the merged
master is the master followed by the stable filter of the batch. -/
theorem merge_order_preservation (B M : DF) (hB : "_dedupe_key" ∈ B.cols)
    (hMne : M.rows ≠ []) (hMc : "_dedupe_key" ∈ M.cols)
    (hMs : ∀ r ∈ M.rows, StrKeyed r) (hBs : ∀ r ∈ B.rows, StrKeyed r) :
    _merge B (some M) = .ok
      (⟨M.cols ++ B.cols.filter (fun c => !(M.cols.contains c)),
        M.rows ++ B.rows.filter (fun r => !((M.rows.map keyStr).contains (keyStr r)))⟩,
       (B.rows.filter (fun r => !((M.rows.map keyStr).contains (keyStr r)))).length) := by
  have hfilter :
      (B.rows.map astypeStrKey).filter (fun r => !((M.rows.map keyStr).contains (keyStr r)))
        = B.rows.filter (fun r => !((M.rows.map keyStr).contains (keyStr r))) := by
    rw [map_astype_of_strKeyed B.rows hBs]
  rw [merge_main_eq B M hB hMne hMc, hfilter, map_astype_of_strKeyed M.rows hMs]

theorem isStr_rowGet_astype (q : Row) (h : (List.lookup "_dedupe_key" q).isSome = true) :
    (rowGet (astypeStrKey q) "_dedupe_key").isStr = true := by
  unfold rowGet
  rw [lookup_astypeStrKey]
  cases hq : List.lookup "_dedupe_key" q with
  | none => rw [hq] at h; simp at h
  | some v => simp [Value.isStr]

theorem not_contains_eq_forall_ne (x : String) (l : List Row) :
    (!((l.map keyStr).contains x)) = decide (∀ m ∈ l, x ≠ keyStr m) := by
  by_cases h : x ∈ l.map keyStr
  · have h1 : (l.map keyStr).contains x = true := List.elem_iff.mpr h
    have h2 : ¬ (∀ m ∈ l, x ≠ keyStr m) := by
      obtain ⟨m, hm, heq⟩ := List.mem_map.mp h
      exact fun hall => hall m hm heq.symm
    rw [h1]
    simp only [Bool.not_true]
    exact (decide_eq_false h2).symm
  · have h1 : (l.map keyStr).contains x = false := by
      cases hcc : (l.map keyStr).contains x
      · rfl
      · exact absurd (List.elem_iff.mp hcc) h
    have h2 : ∀ m ∈ l, x ≠ keyStr m :=
      fun m hm heq => h (List.mem_map.mpr ⟨m, hm, heq.symm⟩)
    rw [h1]
    simp only [Bool.not_false]
    exact (decide_eq_true h2).symm

theorem filter_astype_comm (p : String → Bool) (l : List Row) :
    (l.map astypeStrKey).filter (fun r => p (keyStr r))
      = (l.filter (fun r => p (keyStr r))).map astypeStrKey := by
  rw [List.filter_map]
  congr 1
  apply List.filter_congr
  intro r _
  simp [Function.comp, keyStr_astypeStrKey]

/-- C10: the merge compares Identity Keys by their string forms — a batch row
is appended iff its string-coerced key differs from the string-coerced key of
every master row — and every key in the merged master is a string value. -/
theorem merge_string_coerced_keys (B M : DF) (hB : "_dedupe_key" ∈ B.cols)
    (hMne : M.rows ≠ []) (hMc : "_dedupe_key" ∈ M.cols)
    (hKB : ∀ r ∈ B.rows, (List.lookup "_dedupe_key" r).isSome = true)
    (hKM : ∀ r ∈ M.rows, (List.lookup "_dedupe_key" r).isSome = true) :
    ∃ res : DF × Nat, _merge B (some M) = .ok res
      ∧ res.1.rows = M.rows.map astypeStrKey
          ++ (B.rows.filter
               (fun r => decide (∀ m ∈ M.rows, keyStr r ≠ keyStr m))).map astypeStrKey
      ∧ res.2 = (B.rows.filter
            (fun r => decide (∀ m ∈ M.rows, keyStr r ≠ keyStr m))).length
      ∧ ∀ r ∈ res.1.rows, (rowGet r "_dedupe_key").isStr = true := by
  have hpred : (fun r => !((M.rows.map keyStr).contains (keyStr r)))
      = (fun r : Row => decide (∀ m ∈ M.rows, keyStr r ≠ keyStr m)) :=
    funext fun r => not_contains_eq_forall_ne (keyStr r) M.rows
  have hcomm := filter_astype_comm
    (fun x => decide (∀ m ∈ M.rows, x ≠ keyStr m)) B.rows
  refine ⟨_, merge_main_eq B M hB hMne hMc, ?_, ?_, ?_⟩
  · simp only [hpred]
    rw [hcomm]
  · simp only [hpred, hcomm, List.length_map]
  · intro r hr
    rcases List.mem_append.mp hr with hr | hr
    · obtain ⟨q, hq, rfl⟩ := List.mem_map.mp hr
      exact isStr_rowGet_astype q (hKM q hq)
    · obtain ⟨hr, -⟩ := List.mem_filter.mp hr
      obtain ⟨q, hq, rfl⟩ := List.mem_map.mp hr
      exact isStr_rowGet_astype q (hKB q hq)


theorem merge_order_preservation_witness :
    (("_dedupe_key" ∈ (⟨["_dedupe_key"], [[("_dedupe_key", Value.str "a")]]⟩ : DF).cols)
      ∧ (⟨["_dedupe_key"], [[("_dedupe_key", Value.str "a")]]⟩ : DF).rows ≠ [])
    ∧ _merge
        ⟨["_dedupe_key"],
          [[("_dedupe_key", Value.str "a")], [("_dedupe_key", Value.str "b")]]⟩
        (some ⟨["_dedupe_key"], [[("_dedupe_key", Value.str "a")]]⟩)
      = .ok (⟨["_dedupe_key"],
              [[("_dedupe_key", Value.str "a")], [("_dedupe_key", Value.str "b")]]⟩, 1) :=
  ⟨⟨by decide, by decide⟩,
   merge_order_preservation _ _ (by decide) (by decide) (by decide) (by decide) (by decide)⟩

theorem merge_string_coerced_keys_witness :
    (("_dedupe_key" ∈ (⟨["_dedupe_key"], [[("_dedupe_key", Value.str "7")]]⟩ : DF).cols)
      ∧ (⟨["_dedupe_key"], [[("_dedupe_key", Value.int 7)]]⟩ : DF).rows ≠ []
      ∧ ("_dedupe_key" ∈ (⟨["_dedupe_key"], [[("_dedupe_key", Value.int 7)]]⟩ : DF).cols))
    ∧ (∃ res : DF × Nat,
        _merge ⟨["_dedupe_key"], [[("_dedupe_key", Value.str "7")]]⟩
            (some ⟨["_dedupe_key"], [[("_dedupe_key", Value.int 7)]]⟩) = .ok res
        ∧ res.1.rows
            = ((⟨["_dedupe_key"], [[("_dedupe_key", Value.int 7)]]⟩ : DF).rows.map astypeStrKey)
              ++ ((⟨["_dedupe_key"], [[("_dedupe_key", Value.str "7")]]⟩ : DF).rows.filter
                   (fun r => decide (∀ m ∈ (⟨["_dedupe_key"],
                      [[("_dedupe_key", Value.int 7)]]⟩ : DF).rows,
                        keyStr r ≠ keyStr m))).map astypeStrKey
        ∧ res.2 = ((⟨["_dedupe_key"], [[("_dedupe_key", Value.str "7")]]⟩ : DF).rows.filter
              (fun r => decide (∀ m ∈ (⟨["_dedupe_key"],
                 [[("_dedupe_key", Value.int 7)]]⟩ : DF).rows, keyStr r ≠ keyStr m))).length
        ∧ ∀ r ∈ res.1.rows, (rowGet r "_dedupe_key").isStr = true)
    ∧ _merge ⟨["_dedupe_key"], [[("_dedupe_key", Value.str "7")]]⟩
        (some ⟨["_dedupe_key"], [[("_dedupe_key", Value.int 7)]]⟩)
      = .ok (⟨["_dedupe_key"], [[("_dedupe_key", Value.str "7")]]⟩, 0) :=
  ⟨⟨by decide, by decide, by decide⟩,
   merge_string_coerced_keys _ _ (by decide) (by decide) (by decide) (by decide) (by decide),
   rfl⟩

/-- C4 counterexample: a batch containing two rows with the same Identity Key
yields a merged master with duplicate keys, whose key-set size is smaller than
`len(M) + appended_count`. -/
theorem merge_uniqueness_growth_counterexample :
    _merge ⟨["_dedupe_key"], [[("_dedupe_key", Value.str "k")], [("_dedupe_key", Value.str "k")]]⟩
        (some ⟨["_dedupe_key"], [[("_dedupe_key", Value.str "z")]]⟩)
      = .ok (⟨["_dedupe_key"],
              [[("_dedupe_key", Value.str "z")],
               [("_dedupe_key", Value.str "k")],
               [("_dedupe_key", Value.str "k")]]⟩, 2)
    ∧ ¬ (([[("_dedupe_key", Value.str "z")],
           [("_dedupe_key", Value.str "k")],
           [("_dedupe_key", Value.str "k")]] : List Row).map keyStr).Nodup
    ∧ (([[("_dedupe_key", Value.str "z")],
         [("_dedupe_key", Value.str "k")],
         [("_dedupe_key", Value.str "k")]] : List Row).map keyStr).dedup.length ≠ 1 + 2 :=
  ⟨rfl, by decide, by decide⟩

/-- `len(master)` of the claim: the row count of the master when present. -/
def masterLen : Option DF → Nat
  | none => 0
  | some m => m.rows.length

/-- C4 amended: provided the batch and the master each carry pairwise-distinct
string-coerced Identity Keys (and the master is absent, empty, or carries the
key column), the merged master has pairwise-distinct keys and exactly
`len(M) + appended_count` rows. -/
theorem merge_uniqueness_growth_amended (B : DF) (M : Option DF)
    (hB : "_dedupe_key" ∈ B.cols)
    (hBu : (B.rows.map keyStr).Nodup)
    (hM : ∀ m, M = some m → m.rows = []
            ∨ ("_dedupe_key" ∈ m.cols ∧ (m.rows.map keyStr).Nodup)) :
    ∃ res : DF × Nat, _merge B M = .ok res
      ∧ (res.1.rows.map keyStr).Nodup
      ∧ res.1.rows.length = masterLen M + res.2 := by
  rcases M with _ | m
  · refine ⟨_, merge_none_eq B hB, ?_, ?_⟩
    · rw [map_keyStr_astype]
      exact hBu
    · simp [masterLen]
  · by_cases hre : m.rows = []
    · refine ⟨_, merge_empty_eq B m hB hre, ?_, ?_⟩
      · rw [map_keyStr_astype]
        exact hBu
      · simp [masterLen, hre]
    · rcases hM m rfl with hre2 | ⟨hmc, hmu⟩
      · exact absurd hre2 hre
      · refine ⟨_, merge_main_eq B m hB hre hmc, ?_, ?_⟩
        · simp only [List.map_append, map_keyStr_astype]
          rw [List.nodup_append]
          refine ⟨hmu, ?_, ?_⟩
          · have hsub := (List.filter_sublist (p :=
              fun r => !((m.rows.map keyStr).contains (keyStr r)))
              (B.rows.map astypeStrKey)).map keyStr
            rw [map_keyStr_astype] at hsub
            exact hBu.sublist hsub
          · intro x hxM hxF
            obtain ⟨r, hrF, rfl⟩ := List.mem_map.mp hxF
            obtain ⟨hrB, hp⟩ := List.mem_filter.mp hrF
            have hcf : (List.map keyStr m.rows).contains (keyStr r) = false := by
              simpa using hp
            have htrue : (List.map keyStr m.rows).contains (keyStr r) = true :=
              List.elem_iff.mpr hxM
            rw [htrue] at hcf
            exact Bool.noConfusion hcf
        · simp [masterLen]

theorem merge_uniqueness_growth_amended_witness :
    (("_dedupe_key" ∈ (⟨["_dedupe_key"],
        [[("_dedupe_key", Value.str "a")], [("_dedupe_key", Value.str "b")]]⟩ : DF).cols)
      ∧ ((⟨["_dedupe_key"],
          [[("_dedupe_key", Value.str "a")], [("_dedupe_key", Value.str "b")]]⟩ : DF).rows.map
            keyStr).Nodup)
    ∧ ∃ res : DF × Nat,
        _merge ⟨["_dedupe_key"],
            [[("_dedupe_key", Value.str "a")], [("_dedupe_key", Value.str "b")]]⟩
          (some ⟨["_dedupe_key"], [[("_dedupe_key", Value.str "a")]]⟩) = .ok res
        ∧ (res.1.rows.map keyStr).Nodup
        ∧ res.1.rows.length
            = masterLen (some ⟨["_dedupe_key"], [[("_dedupe_key", Value.str "a")]]⟩) + res.2 :=
  ⟨⟨by decide, by decide⟩,
   merge_uniqueness_growth_amended _ _ (by decide) (by decide)
     (fun m hm => by
       cases hm
       exact Or.inr ⟨by decide, by decide⟩)⟩

theorem keys_cover_second_merge (B : DF) (N : DF) (hB : "_dedupe_key" ∈ B.cols)
    (hNc : "_dedupe_key" ∈ N.cols)
    (hcov : ∀ r ∈ B.rows.map astypeStrKey, keyStr r ∈ N.rows.map keyStr)
    (hNemp : N.rows = [] → B.rows = []) :
    ∃ res₂ : DF × Nat, _merge B (some N) = .ok res₂ ∧ res₂.2 = 0 := by
  by_cases hre : N.rows = []
  · exact ⟨_, merge_empty_eq B N hB hre, by simp [hNemp hre]⟩
  · refine ⟨_, merge_main_eq B N hB hre hNc, ?_⟩
    have hnil : (B.rows.map astypeStrKey).filter
        (fun r => !((N.rows.map keyStr).contains (keyStr r))) = [] := by
      rw [List.filter_eq_nil_iff]
      intro r hr
      rw [Bool.not_eq_true, Bool.not_eq_false']
      exact List.elem_iff.mpr (hcov r hr)
    simp only [hnil, List.length_nil]

/-- C1: idempotence — re-merging the same batch against the master produced by
a first merge appends zero rows, for every master (absent, empty, legacy, or
key-carrying). -/
theorem merge_idempotent (B : DF) (M : Option DF) (hB : "_dedupe_key" ∈ B.cols)
    (res₁ : DF × Nat) (h1 : _merge B M = .ok res₁) :
    ∃ res₂ : DF × Nat, _merge B (some res₁.1) = .ok res₂ ∧ res₂.2 = 0 := by
  have hself : ∀ r ∈ B.rows.map astypeStrKey,
      keyStr r ∈ (B.rows.map astypeStrKey).map keyStr :=
    fun r hr => List.mem_map.mpr ⟨r, hr, rfl⟩
  rcases M with _ | m
  · rw [merge_none_eq B hB] at h1
    obtain rfl := (Except.ok.inj h1).symm
    exact keys_cover_second_merge B _ hB hB hself
      (fun h => by simpa using congrArg List.length h)
  · by_cases hre : m.rows = []
    · rw [merge_empty_eq B m hB hre] at h1
      obtain rfl := (Except.ok.inj h1).symm
      exact keys_cover_second_merge B _ hB hB hself
        (fun h => by simpa using congrArg List.length h)
    · by_cases hmc : "_dedupe_key" ∈ m.cols
      · rw [merge_main_eq B m hB hre hmc] at h1
        obtain rfl := (Except.ok.inj h1).symm
        refine keys_cover_second_merge B _ hB (List.mem_append.mpr (Or.inl hmc)) ?_ ?_
        · intro r hr
          simp only [List.map_append]
          by_cases hk : keyStr r ∈ (m.rows.map astypeStrKey).map keyStr
          · exact List.mem_append.mpr (Or.inl hk)
          · refine List.mem_append.mpr (Or.inr ?_)
            refine List.mem_map.mpr ⟨r, ?_, rfl⟩
            rw [List.mem_filter]
            refine ⟨hr, ?_⟩
            rw [map_keyStr_astype] at hk
            rw [Bool.not_eq_eq_eq_not, Bool.not_true]
            cases hcc : (m.rows.map keyStr).contains (keyStr r)
            · rfl
            · exact absurd (List.elem_iff.mp hcc) hk
        · intro h
          obtain ⟨hml, -⟩ := List.append_eq_nil.mp h
          exact absurd (List.map_eq_nil_iff.mp hml) hre
      · rw [merge_legacy_eq B m hB hre hmc] at h1
        obtain rfl := (Except.ok.inj h1).symm
        exact keys_cover_second_merge B _ hB hB hself
          (fun h => by simpa using congrArg List.length h)

theorem merge_idempotent_witness :
    (("_dedupe_key" ∈ (⟨["_dedupe_key"],
        [[("_dedupe_key", Value.str "a")], [("_dedupe_key", Value.str "b")]]⟩ : DF).cols)
      ∧ _merge ⟨["_dedupe_key"],
            [[("_dedupe_key", Value.str "a")], [("_dedupe_key", Value.str "b")]]⟩
          (some ⟨["_dedupe_key"], [[("_dedupe_key", Value.str "a")]]⟩)
        = .ok (⟨["_dedupe_key"],
                [[("_dedupe_key", Value.str "a")], [("_dedupe_key", Value.str "b")]]⟩, 1))
    ∧ ∃ res₂ : DF × Nat,
        _merge ⟨["_dedupe_key"],
            [[("_dedupe_key", Value.str "a")], [("_dedupe_key", Value.str "b")]]⟩
          (some (⟨["_dedupe_key"],
                  [[("_dedupe_key", Value.str "a")], [("_dedupe_key", Value.str "b")]]⟩, 1).1)
        = .ok res₂ ∧ res₂.2 = 0 :=
  ⟨⟨by decide, rfl⟩,
   merge_idempotent _ (some ⟨["_dedupe_key"], [[("_dedupe_key", Value.str "a")]]⟩)
     (by decide)
     (⟨["_dedupe_key"],
       [[("_dedupe_key", Value.str "a")], [("_dedupe_key", Value.str "b")]]⟩, 1) rfl⟩


/-! ### The identity assigner (`pipeline.choose_dedupe_key`)

`row_hash` serializes the non-excluded fields with
`json.dumps(payload, sort_keys=True, default=str)` (ASCII output, `", "` and
`": "` separators), encodes as UTF-8, and takes the SHA-256 hex digest. -/

/-- Lowercase hexadecimal digit. -/
def hexDigit (n : Nat) : Char :=
  if n < 10 then Char.ofNat (48 + n) else Char.ofNat (87 + n)

/-- Four lowercase hex digits, most significant first. -/
def hexDigit4 (n : Nat) : List Char :=
  [hexDigit ((n / 4096) % 16), hexDigit ((n / 256) % 16),
   hexDigit ((n / 16) % 16), hexDigit (n % 16)]

/-- JSON escaping of one character, ASCII-only output as produced by
`json.dumps` with its default `ensure_ascii=True`. -/
def escapeChar (c : Char) : List Char :=
  if c = Char.ofNat 34 then [Char.ofNat 92, Char.ofNat 34]
  else if c = Char.ofNat 92 then [Char.ofNat 92, Char.ofNat 92]
  else if c.toNat = 10 then [Char.ofNat 92, Char.ofNat 110]
  else if c.toNat = 13 then [Char.ofNat 92, Char.ofNat 114]
  else if c.toNat = 9 then [Char.ofNat 92, Char.ofNat 116]
  else if c.toNat = 8 then [Char.ofNat 92, Char.ofNat 98]
  else if c.toNat = 12 then [Char.ofNat 92, Char.ofNat 102]
  else if c.toNat < 32 then Char.ofNat 92 :: Char.ofNat 117 :: hexDigit4 c.toNat
  else if c.toNat < 127 then [c]
  else if c.toNat < 65536 then Char.ofNat 92 :: Char.ofNat 117 :: hexDigit4 c.toNat
  else
    (Char.ofNat 92 :: Char.ofNat 117 :: hexDigit4 (55296 + (c.toNat - 65536) / 1024))
      ++ (Char.ofNat 92 :: Char.ofNat 117 :: hexDigit4 (56320 + (c.toNat - 65536) % 1024))

/-- A JSON string literal: quote, escaped characters, quote. -/
def jsonString (s : String) : List Char :=
  Char.ofNat 34 :: (s.data.flatMap escapeChar ++ [Char.ofNat 34])

/-- JSON form of one scalar value. `default=str` never fires: every modelled
scalar is natively serializable. -/
def jsonValue : Value → List Char
  | .str s => jsonString s
  | .int n => (toString n).data
  | .null => "null".data

/-- `json.dumps(payload, sort_keys=True)` for a payload whose keys are already
sorted: `\x7b"k": v, ...\x7d` with the default separators. -/
def jsonDumps (pairs : List (String × Value)) : String :=
  String.mk (Char.ofNat 123 ::
    (List.intercalate [Char.ofNat 44, Char.ofNat 32]
      (pairs.map (fun p => jsonString p.1 ++ (Char.ofNat 58 :: Char.ofNat 32 :: jsonValue p.2)))
     ++ [Char.ofNat 125]))

/-- UTF-8 encoding of one character, as byte values. -/
def utf8Bytes (c : Char) : List Nat :=
  let n := c.toNat
  if n < 128 then [n]
  else if n < 2048 then [192 + n / 64, 128 + n % 64]
  else if n < 65536 then [224 + n / 4096, 128 + (n / 64) % 64, 128 + n % 64]
  else [240 + n / 262144, 128 + (n / 4096) % 64, 128 + (n / 64) % 64, 128 + n % 64]

/-- `s.encode("utf-8")` as a byte list. -/
def strUtf8 (s : String) : List Nat := s.data.flatMap utf8Bytes

/-! SHA-256 (FIPS 180-4) over byte lists, on `Nat` with explicit `% 2^32`. -/

def w32 (x : Nat) : Nat := x % 4294967296

def rotr32 (n x : Nat) : Nat := w32 ((x >>> n) ||| (x <<< (32 - n)))

def shaCh (x y z : Nat) : Nat := (x &&& y) ^^^ ((x ^^^ 4294967295) &&& z)

def shaMaj (x y z : Nat) : Nat := (x &&& y) ^^^ (x &&& z) ^^^ (y &&& z)

def bsig0 (x : Nat) : Nat := rotr32 2 x ^^^ rotr32 13 x ^^^ rotr32 22 x

def bsig1 (x : Nat) : Nat := rotr32 6 x ^^^ rotr32 11 x ^^^ rotr32 25 x

def ssig0 (x : Nat) : Nat := rotr32 7 x ^^^ rotr32 18 x ^^^ (x >>> 3)

def ssig1 (x : Nat) : Nat := rotr32 17 x ^^^ rotr32 19 x ^^^ (x >>> 10)

/-- The 64 SHA-256 round constants. -/
def shaK : List Nat :=
  [1116352408, 1899447441, 3049323471, 3921009573, 961987163, 1508970993,
   2453635748, 2870763221, 3624381080, 310598401, 607225278, 1426881987,
   1925078388, 2162078206, 2614888103, 3248222580, 3835390401, 4022224774,
   264347078, 604807628, 770255983, 1249150122, 1555081692, 1996064986,
   2554220882, 2821834349, 2952996808, 3210313671, 3336571891, 3584528711,
   113926993, 338241895, 666307205, 773529912, 1294757372, 1396182291,
   1695183700, 1986661051, 2177026350, 2456956037, 2730485921, 2820302411,
   3259730800, 3345764771, 3516065817, 3600352804, 4094571909, 275423344,
   430227734, 506948616, 659060556, 883997877, 958139571, 1322822218,
   1537002063, 1747873779, 1955562222, 2024104815, 2227730452, 2361852424,
   2428436474, 2756734187, 3204031479, 3329325298]

/-- SHA-256 padding: a 0x80 byte, zeros to 56 mod 64, and the 64-bit
big-endian bit length. -/
def padMessage (msg : List Nat) : List Nat :=
  let L := msg.length
  let zeros := (119 - L % 64) % 64
  msg ++ (128 :: List.replicate zeros 0)
    ++ ((List.range 8).map (fun i => (L * 8) >>> (8 * (7 - i)) % 256))

/-- Big-endian 32-bit words from bytes. -/
def bytesToWords : List Nat → List Nat
  | b0 :: b1 :: b2 :: b3 :: rest =>
    (((b0 * 256 + b1) * 256 + b2) * 256 + b3) :: bytesToWords rest
  | _ => []

/-- 64-byte blocks. -/
def shaBlocks : List Nat → List (List Nat)
  | [] => []
  | bs@(_ :: _) => bs.take 64 :: shaBlocks (bs.drop 64)
termination_by bs => bs.length
decreasing_by
  rename_i hbs
  subst hbs
  simp [List.length_drop]
  omega

/-- Extend the 16-word schedule by `fuel` more words. -/
def extendSchedule (ws : List Nat) : Nat → List Nat
  | 0 => ws
  | k + 1 =>
    let i := ws.length
    extendSchedule
      (ws ++ [w32 (ssig1 (ws.getD (i - 2) 0) + ws.getD (i - 7) 0
                 + ssig0 (ws.getD (i - 15) 0) + ws.getD (i - 16) 0)]) k

/-- The eight working variables. -/
structure Hash8 where
  a : Nat
  b : Nat
  c : Nat
  d : Nat
  e : Nat
  f : Nat
  g : Nat
  h : Nat

/-- One compression round. -/
def shaRound (st : Hash8) (kw : Nat × Nat) : Hash8 :=
  let t1 := w32 (st.h + bsig1 st.e + shaCh st.e st.f st.g + kw.1 + kw.2)
  let t2 := w32 (bsig0 st.a + shaMaj st.a st.b st.c)
  ⟨w32 (t1 + t2), st.a, st.b, st.c, w32 (st.d + t1), st.e, st.f, st.g⟩

/-- Process one 64-byte block. -/
def processBlock (H : Hash8) (block : List Nat) : Hash8 :=
  let ws := extendSchedule (bytesToWords block) 48
  let st := (shaK.zip ws).foldl shaRound H
  ⟨w32 (H.a + st.a), w32 (H.b + st.b), w32 (H.c + st.c), w32 (H.d + st.d),
   w32 (H.e + st.e), w32 (H.f + st.f), w32 (H.g + st.g), w32 (H.h + st.h)⟩

/-- The SHA-256 initial hash value. -/
def shaInit : Hash8 :=
  ⟨1779033703, 3144134277, 1013904242, 2773480762,
   1359893119, 2600822924, 528734635, 1541459225⟩

/-- The 256-bit digest of a byte list, as a natural number below `2^256`. -/
def sha256Nat (msg : List Nat) : Nat :=
  let H := (shaBlocks (padMessage msg)).foldl processBlock shaInit
  (((((((H.a <<< 32 ||| H.b) <<< 32 ||| H.c) <<< 32 ||| H.d) <<< 32 ||| H.e)
      <<< 32 ||| H.f) <<< 32 ||| H.g) <<< 32 ||| H.h) % (2 ^ 256)

/-- Fixed-width lowercase hex, most significant digit first. -/
def natToHexAux : Nat → Nat → List Char
  | 0, _ => []
  | k + 1, n => natToHexAux k (n / 16) ++ [hexDigit (n % 16)]

/-- `hashlib.sha256(bytes).hexdigest()`: 64 lowercase hex characters. -/
def sha256Hex (msg : List Nat) : String := String.mk (natToHexAux 64 (sha256Nat msg))

/-! ### `choose_dedupe_key` itself -/

/-- Common ArcGIS GlobalID naming variants, in the order the source tries
them. -/
def globalIdVariants : List String := ["GlobalID", "globalid", "GLOBALID"]

/-- Likely-volatile fields excluded from the content hash. -/
def excludeCols : List String := ["OBJECTID", "ObjectId", "objectid", "_dedupe_key"]

/-- Lexicographic comparison of code-point lists, Python string order. -/
def charListLe : List Char → List Char → Bool
  | [], _ => true
  | _ :: _, [] => false
  | c :: cs, d :: ds =>
    if c.toNat < d.toNat then true
    else if d.toNat < c.toNat then false
    else charListLe cs ds

/-- Python `a <= b` on strings: lexicographic by code point. -/
def strLe (a b : String) : Bool := charListLe a.data b.data

/-- Insert into an ascending list, keeping it sorted. -/
def insertSorted (a : String) : List String → List String
  | [] => [a]
  | b :: t => if strLe a b then a :: b :: t else b :: insertSorted a t

/-- Python `sorted` on strings (lexicographic by code point). Insertion sort:
`≤` on strings is a total linear order, so the ascending result is the same
list `sorted` produces. -/
def sortStrings : List String → List String
  | [] => []
  | a :: t => insertSorted a (sortStrings t)

/-- The sorted non-excluded columns a data frame is hashed over. -/
def hashColsOf (df : DF) : List String :=
  sortStrings (df.cols.filter (fun c => !(excludeCols.contains c)))

/-- `row_hash(row)`: SHA-256 hex digest of the canonical JSON serialization of
the non-excluded fields. -/
def row_hash (cols_sorted : List String) (r : Row) : String :=
  sha256Hex (strUtf8 (jsonDumps (cols_sorted.map (fun c => (c, rowGet r c)))))

/-- `choose_dedupe_key(df)`: the GlobalID column coerced to strings when one
of the recognized variants exists, otherwise the content hash of each row. -/
def choose_dedupe_key (df : DF) : List String :=
  match globalIdVariants.find? (fun c => df.cols.contains c) with
  | some c => df.rows.map (fun r => (rowGet r c).toPyStr)
  | none => df.rows.map (row_hash (hashColsOf df))


/-! ### Lemmas about the identity assigner -/

theorem mem_insertSorted (a c : String) (l : List String) :
    c ∈ insertSorted a l ↔ c ∈ a :: l := by
  induction l with
  | nil => simp [insertSorted]
  | cons b t ih =>
    by_cases h : strLe a b = true
    · simp [insertSorted, h]
    · simp only [insertSorted, if_neg h]
      simp [ih]
      tauto

theorem mem_sortStrings (c : String) (l : List String) :
    c ∈ sortStrings l ↔ c ∈ l := by
  induction l with
  | nil => simp [sortStrings]
  | cons a t ih => simp [sortStrings, mem_insertSorted, ih]

theorem mem_hashColsOf {df : DF} {c : String} (hc : c ∈ hashColsOf df) :
    c ∈ df.cols ∧ c ∉ excludeCols := by
  unfold hashColsOf at hc
  rw [mem_sortStrings] at hc
  obtain ⟨hcc, hce⟩ := List.mem_filter.mp hc
  refine ⟨hcc, fun hmem => ?_⟩
  have hfalse : excludeCols.contains c = false := by simpa using hce
  have htrue : excludeCols.contains c = true := List.elem_iff.mpr hmem
  rw [htrue] at hfalse
  exact Bool.noConfusion hfalse

/-- The content hash depends only on the hashed columns' values. -/
theorem row_hash_congr (cols : List String) (r1 r2 : Row)
    (h : ∀ c ∈ cols, rowGet r1 c = rowGet r2 c) :
    row_hash cols r1 = row_hash cols r2 := by
  unfold row_hash
  have hpay : cols.map (fun c => (c, rowGet r1 c)) = cols.map (fun c => (c, rowGet r2 c)) :=
    List.map_congr_left (fun c hc => by rw [h c hc])
  rw [hpay]

theorem sha256Nat_lt (m : List Nat) : sha256Nat m < 2 ^ 256 := by
  unfold sha256Nat
  exact Nat.mod_lt _ (by positivity)

/-- On the hash path, `choose_dedupe_key` is the row hash over the sorted
non-excluded columns. -/
theorem choose_dedupe_key_hash_path (df : DF)
    (hfind : globalIdVariants.find? (fun c => df.cols.contains c) = none) :
    choose_dedupe_key df = df.rows.map (row_hash (hashColsOf df)) := by
  unfold choose_dedupe_key
  rw [hfind]

/-- On the id path, `choose_dedupe_key` is the string coercion of the found
GlobalID-variant column. -/
theorem choose_dedupe_key_id_path (df : DF) (c : String)
    (hfind : globalIdVariants.find? (fun v => df.cols.contains v) = some c) :
    choose_dedupe_key df = df.rows.map (fun r => (rowGet r c).toPyStr) := by
  unfold choose_dedupe_key
  rw [hfind]


/-- C8: whenever a recognized GlobalID variant column exists, every record is
keyed by the string coercion of its value in the first such column, uniformly
for the whole batch (blank or null values included) — the hash fallback is
never taken. -/
theorem global_identifier_pathway (df : DF)
    (h : ∃ v ∈ globalIdVariants, v ∈ df.cols) :
    ∃ c ∈ globalIdVariants, c ∈ df.cols
      ∧ choose_dedupe_key df = df.rows.map (fun r => (rowGet r c).toPyStr) := by
  have hfind : (globalIdVariants.find? (fun c => df.cols.contains c)).isSome := by
    rw [List.find?_isSome]
    obtain ⟨v, hv, hvc⟩ := h
    exact ⟨v, hv, List.elem_iff.mpr hvc⟩
  obtain ⟨c, hc⟩ := Option.isSome_iff_exists.mp hfind
  have hp : df.cols.contains c = true := List.find?_some hc
  exact ⟨c, List.mem_of_find?_eq_some hc, List.elem_iff.mp hp,
    choose_dedupe_key_id_path df c hc⟩

theorem global_identifier_pathway_witness :
    (∃ v ∈ globalIdVariants, v ∈ (⟨["globalid", "x"],
        [[("globalid", Value.null), ("x", Value.str "p")],
         [("globalid", Value.str ""), ("x", Value.str "q")]]⟩ : DF).cols)
    ∧ (∃ c ∈ globalIdVariants, c ∈ (⟨["globalid", "x"],
          [[("globalid", Value.null), ("x", Value.str "p")],
           [("globalid", Value.str ""), ("x", Value.str "q")]]⟩ : DF).cols
        ∧ choose_dedupe_key ⟨["globalid", "x"],
            [[("globalid", Value.null), ("x", Value.str "p")],
             [("globalid", Value.str ""), ("x", Value.str "q")]]⟩
          = (⟨["globalid", "x"],
              [[("globalid", Value.null), ("x", Value.str "p")],
               [("globalid", Value.str ""), ("x", Value.str "q")]]⟩ : DF).rows.map
              (fun r => (rowGet r c).toPyStr))
    ∧ choose_dedupe_key ⟨["globalid", "x"],
        [[("globalid", Value.null), ("x", Value.str "p")],
         [("globalid", Value.str ""), ("x", Value.str "q")]]⟩ = ["None", ""] :=
  ⟨⟨"globalid", by decide, by decide⟩,
   global_identifier_pathway _ ⟨"globalid", by decide, by decide⟩,
   rfl⟩

/-- C3 counterexample: two batch rows differing only in `OBJECTID` both get
the same hash key, yet the merge keeps BOTH — the merged master holds two
rows with that key, so the second row is not dropped. -/
theorem within_batch_duplicates_counterexample :
    (rowGet [("OBJECTID", Value.int 1), ("x", Value.str "a")] "OBJECTID"
      ≠ rowGet [("OBJECTID", Value.int 2), ("x", Value.str "a")] "OBJECTID")
    ∧ (rowGet [("OBJECTID", Value.int 1), ("x", Value.str "a")] "x"
      = rowGet [("OBJECTID", Value.int 2), ("x", Value.str "a")] "x")
    ∧ choose_dedupe_key ⟨["OBJECTID", "x"],
        [[("OBJECTID", Value.int 1), ("x", Value.str "a")],
         [("OBJECTID", Value.int 2), ("x", Value.str "a")]]⟩
      = [row_hash ["x"] [("x", Value.str "a")], row_hash ["x"] [("x", Value.str "a")]]
    ∧ (∃ res : DF × Nat,
        _merge ⟨["OBJECTID", "x", "_dedupe_key"],
            [[("OBJECTID", Value.int 1), ("x", Value.str "a"),
              ("_dedupe_key", Value.str (row_hash ["x"] [("x", Value.str "a")]))],
             [("OBJECTID", Value.int 2), ("x", Value.str "a"),
              ("_dedupe_key", Value.str (row_hash ["x"] [("x", Value.str "a")]))]]⟩ none
          = .ok res
        ∧ res.2 = 2
        ∧ res.1.rows.map keyStr
            = [row_hash ["x"] [("x", Value.str "a")], row_hash ["x"] [("x", Value.str "a")]]
        ∧ res.1.rows.length = 2) :=
  ⟨by decide, rfl, rfl, ⟨_, rfl, rfl, rfl, rfl⟩⟩

/-- C3 amended: both rows of the two-row batch receive the same hash-derived
Identity Key, but the merge collapses nothing within a batch: when the shared
key is absent from the master, BOTH rows are appended (the merged master then
holds two rows with that key); rows are dropped only against keys already in
the master. -/
theorem within_batch_duplicates_amended
    (batchCols : List String) (r1 r2 : Row)
    (hfind : globalIdVariants.find? (fun c => batchCols.contains c) = none)
    (hagree : ∀ c ∈ batchCols, c ∉ excludeCols → rowGet r1 c = rowGet r2 c) :
    (∃ k, choose_dedupe_key ⟨batchCols, [r1, r2]⟩ = [k, k])
    ∧ ∀ (B M : DF) (b1 b2 : Row), B.rows = [b1, b2] → keyStr b1 = keyStr b2 →
        "_dedupe_key" ∈ B.cols → M.rows ≠ [] → "_dedupe_key" ∈ M.cols →
        keyStr b1 ∉ M.rows.map keyStr →
        ∃ res : DF × Nat, _merge B (some M) = .ok res ∧ res.2 = 2
          ∧ res.1.rows = M.rows.map astypeStrKey ++ [astypeStrKey b1, astypeStrKey b2] := by
  constructor
  · have hkey : row_hash (hashColsOf ⟨batchCols, [r1, r2]⟩) r1
        = row_hash (hashColsOf ⟨batchCols, [r1, r2]⟩) r2 :=
      row_hash_congr _ r1 r2 (fun c hc =>
        hagree c (mem_hashColsOf hc).1 (mem_hashColsOf hc).2)
    refine ⟨row_hash (hashColsOf ⟨batchCols, [r1, r2]⟩) r1, ?_⟩
    rw [choose_dedupe_key_hash_path ⟨batchCols, [r1, r2]⟩ hfind]
    rw [show (⟨batchCols, [r1, r2]⟩ : DF).rows.map
          (row_hash (hashColsOf ⟨batchCols, [r1, r2]⟩))
        = [row_hash (hashColsOf ⟨batchCols, [r1, r2]⟩) r1,
           row_hash (hashColsOf ⟨batchCols, [r1, r2]⟩) r2] from rfl, hkey]
  · intro B M b1 b2 hBrows hkeq hB hMne hMc hnotin
    have hcont : ∀ b : Row, keyStr b = keyStr b1 →
        (!((M.rows.map keyStr).contains (keyStr (astypeStrKey b)))) = true := by
      intro b hb
      rw [keyStr_astypeStrKey, hb]
      cases hcc : (M.rows.map keyStr).contains (keyStr b1)
      · rfl
      · exact absurd (List.elem_iff.mp hcc) hnotin
    have hfil : (B.rows.map astypeStrKey).filter
        (fun r => !((M.rows.map keyStr).contains (keyStr r)))
          = [astypeStrKey b1, astypeStrKey b2] := by
      rw [hBrows]
      simp only [List.map_cons, List.map_nil, List.filter_cons, hcont b1 rfl,
        hcont b2 hkeq.symm, if_true, List.filter_nil]
    refine ⟨_, merge_main_eq B M hB hMne hMc, ?_, ?_⟩
    · simp only [hfil, List.length_cons, List.length_nil]
    · simp only [hfil]

theorem within_batch_duplicates_amended_witness :
    ((globalIdVariants.find?
        (fun c => (["OBJECTID", "x"] : List String).contains c) = none)
      ∧ (∀ c ∈ (["OBJECTID", "x"] : List String), c ∉ excludeCols →
          rowGet [("OBJECTID", Value.int 1), ("x", Value.str "a")] c
            = rowGet [("OBJECTID", Value.int 2), ("x", Value.str "a")] c))
    ∧ (∃ k, choose_dedupe_key ⟨["OBJECTID", "x"],
          [[("OBJECTID", Value.int 1), ("x", Value.str "a")],
           [("OBJECTID", Value.int 2), ("x", Value.str "a")]]⟩ = [k, k])
    ∧ ∀ (B M : DF) (b1 b2 : Row), B.rows = [b1, b2] → keyStr b1 = keyStr b2 →
        "_dedupe_key" ∈ B.cols → M.rows ≠ [] → "_dedupe_key" ∈ M.cols →
        keyStr b1 ∉ M.rows.map keyStr →
        ∃ res : DF × Nat, _merge B (some M) = .ok res ∧ res.2 = 2
          ∧ res.1.rows = M.rows.map astypeStrKey ++ [astypeStrKey b1, astypeStrKey b2] :=
  ⟨⟨by decide, by decide⟩,
   (within_batch_duplicates_amended ["OBJECTID", "x"]
      [("OBJECTID", Value.int 1), ("x", Value.str "a")]
      [("OBJECTID", Value.int 2), ("x", Value.str "a")]
      (by decide) (by decide)).1,
   (within_batch_duplicates_amended ["OBJECTID", "x"]
      [("OBJECTID", Value.int 1), ("x", Value.str "a")]
      [("OBJECTID", Value.int 2), ("x", Value.str "a")]
      (by decide) (by decide)).2⟩


/-- C9 counterexample. Part one: changing the global-identifier value from
the number 7 to the string "7" changes the record but not the id-path key
(string coercion is not injective). Part two: the 256-bit digest has a finite
range while records are unbounded, so two records differing in the
non-excluded field "a" share a hash-path key — "changing any non-excluded
field changes the hash-path key" cannot hold. -/
theorem identity_stability_counterexample :
    ((rowGet [("GlobalID", Value.int 7)] "GlobalID"
        ≠ rowGet [("GlobalID", Value.str "7")] "GlobalID")
      ∧ choose_dedupe_key ⟨["GlobalID"],
          [[("GlobalID", Value.int 7)], [("GlobalID", Value.str "7")]]⟩ = ["7", "7"])
    ∧ ∃ r1 r2 : Row, rowGet r1 "a" ≠ rowGet r2 "a"
        ∧ choose_dedupe_key ⟨["a"], [r1, r2]⟩ = [row_hash ["a"] r1, row_hash ["a"] r2]
        ∧ row_hash ["a"] r1 = row_hash ["a"] r2 := by
  refine ⟨⟨by decide, rfl⟩, ?_⟩
  obtain ⟨n, m, hnm, heq⟩ := Finite.exists_ne_map_eq_of_infinite
    (fun n : Nat =>
      (⟨sha256Nat (strUtf8 (jsonDumps (["a"].map (fun c =>
          (c, rowGet [("a", Value.str (String.mk (List.replicate n (Char.ofNat 120))))] c))))),
        sha256Nat_lt _⟩ : Fin (2 ^ 256)))
  refine ⟨[("a", Value.str (String.mk (List.replicate n (Char.ofNat 120))))],
          [("a", Value.str (String.mk (List.replicate m (Char.ofNat 120))))], ?_, rfl, ?_⟩
  · intro hv
    apply hnm
    have h1 : rowGet [("a", Value.str (String.mk (List.replicate n (Char.ofNat 120))))] "a"
        = Value.str (String.mk (List.replicate n (Char.ofNat 120))) := rfl
    have h2 : rowGet [("a", Value.str (String.mk (List.replicate m (Char.ofNat 120))))] "a"
        = Value.str (String.mk (List.replicate m (Char.ofNat 120))) := rfl
    rw [h1, h2] at hv
    have hv2 := congrArg (fun v => match v with
      | Value.str s => s.data.length
      | _ => 0) hv
    simpa using hv2
  · exact congrArg (fun v => String.mk (natToHexAux 64 v)) (congrArg Fin.val heq)

/-- C9 amended: (a) the hash key is a pure function of the hashed columns;
(b) on the hash path, records agreeing outside the excluded volatile columns
get the same key; (c) records with different hash-path keys differ in some
non-excluded column (the injective direction fails — see the counterexample);
(d) on the id path, changing the global identifier between two distinct
string values changes the key (distinct values of mixed type need not). -/
theorem identity_stability_amended :
    (∀ (cols : List String) (r1 r2 : Row),
      (∀ c ∈ cols, rowGet r1 c = rowGet r2 c) → row_hash cols r1 = row_hash cols r2)
    ∧ (∀ (df : DF) (r1 r2 : Row),
        globalIdVariants.find? (fun c => df.cols.contains c) = none →
        (∀ c ∈ df.cols, c ∉ excludeCols → rowGet r1 c = rowGet r2 c) →
        row_hash (hashColsOf df) r1 = row_hash (hashColsOf df) r2)
    ∧ (∀ (df : DF) (r1 r2 : Row),
        row_hash (hashColsOf df) r1 ≠ row_hash (hashColsOf df) r2 →
        ∃ c ∈ df.cols, c ∉ excludeCols ∧ rowGet r1 c ≠ rowGet r2 c)
    ∧ (∀ (df : DF) (c : String),
        globalIdVariants.find? (fun v => df.cols.contains v) = some c →
        choose_dedupe_key df = df.rows.map (fun r => (rowGet r c).toPyStr)
          ∧ ∀ (r1 r2 : Row) (s1 s2 : String), rowGet r1 c = Value.str s1 →
              rowGet r2 c = Value.str s2 → s1 ≠ s2 →
              (rowGet r1 c).toPyStr ≠ (rowGet r2 c).toPyStr) := by
  refine ⟨row_hash_congr, ?_, ?_, ?_⟩
  · intro df r1 r2 _ hagree
    exact row_hash_congr _ r1 r2
      (fun c hc => hagree c (mem_hashColsOf hc).1 (mem_hashColsOf hc).2)
  · intro df r1 r2 hne
    by_contra hnex
    push_neg at hnex
    exact hne (row_hash_congr _ r1 r2
      (fun c hc => hnex c (mem_hashColsOf hc).1 (mem_hashColsOf hc).2))
  · intro df c hfind
    refine ⟨choose_dedupe_key_id_path df c hfind, ?_⟩
    intro r1 r2 s1 s2 h1 h2 hs
    rw [h1, h2]
    simpa [Value.toPyStr] using hs

theorem identity_stability_amended_witness :
    (∀ c ∈ (["x"] : List String),
        rowGet [("OBJECTID", Value.int 1), ("x", Value.str "a")] c
          = rowGet [("OBJECTID", Value.int 2), ("x", Value.str "a")] c)
    ∧ row_hash ["x"] [("OBJECTID", Value.int 1), ("x", Value.str "a")]
        = row_hash ["x"] [("OBJECTID", Value.int 2), ("x", Value.str "a")]
    ∧ (globalIdVariants.find? (fun v => (⟨["GlobalID"],
          [[("GlobalID", Value.str "A")], [("GlobalID", Value.str "B")]]⟩ : DF).cols.contains v)
        = some "GlobalID")
    ∧ choose_dedupe_key ⟨["GlobalID"],
        [[("GlobalID", Value.str "A")], [("GlobalID", Value.str "B")]]⟩ = ["A", "B"]
    ∧ (rowGet [("GlobalID", Value.str "A")] "GlobalID").toPyStr
        ≠ (rowGet [("GlobalID", Value.str "B")] "GlobalID").toPyStr :=
  ⟨by decide,
   identity_stability_amended.1 ["x"]
     [("OBJECTID", Value.int 1), ("x", Value.str "a")]
     [("OBJECTID", Value.int 2), ("x", Value.str "a")] (by decide),
   by decide,
   ((identity_stability_amended.2.2.2 _ "GlobalID" (by decide)).1).trans rfl,
   (identity_stability_amended.2.2.2 ⟨["GlobalID"],
       [[("GlobalID", Value.str "A")], [("GlobalID", Value.str "B")]]⟩ "GlobalID"
     (by decide)).2 [("GlobalID", Value.str "A")] [("GlobalID", Value.str "B")]
     "A" "B" rfl rfl (by decide)⟩

end AlphaPolice
